import Mathlib

/-!
Verification of the notion-duplicate-checker repository.

Shallow embedding of the repository's TypeScript sources:
- `backfill-local-deploy.ts` (bulk backfill: fetch, build duplicate map, tag),
- `duplicate-checker-deploy.ts` (webhook handler + SQLite name index),
- `index-builder-deploy.ts` (resumable index builder with progress row).

Strings are Lean `String`s; the SQLite `name_index` table is a list of rows in
rowid (= insertion) order; the external Notion API is an explicit environment
of oracles; exceptions are `Except`.
-/

namespace NotionDup

/-! ## Normalizer

`normalizeName(name) = name.trim().toLowerCase()` (identical in all three
source files).  JavaScript `toLowerCase` performs Unicode simple lowercasing;
we model it faithfully on the character ranges this system encounters
(ASCII `A`-`Z` and Cyrillic `А`-`Я`, `Ё`, the alphabet of the client's
`клиент` names); every other character is left unchanged, so the function is
total and never rejects non-ASCII input, exactly like the source.
`trim` removes surrounding whitespace. -/

/-- One character of JavaScript `toLowerCase`, on the ranges used here. -/
def charLower (c : Char) : Char :=
  if 'A' ≤ c ∧ c ≤ 'Z' then Char.ofNat (c.toNat + 32)
  else if c = 'Ё' then 'ё'
  else if 'А' ≤ c ∧ c ≤ 'Я' then Char.ofNat (c.toNat + 32)
  else c

/-- JavaScript `String.prototype.toLowerCase`. -/
def strLower (s : String) : String := ⟨s.data.map charLower⟩

/-- Whitespace for `trim` (space, tab, newline, carriage return). -/
def isWs (c : Char) : Bool := c = ' ' || c = '\t' || c = '\n' || c = '\r'

/-- JavaScript `String.prototype.trim` on the underlying character list. -/
def trimChars (cs : List Char) : List Char :=
  ((cs.dropWhile isWs).reverse.dropWhile isWs).reverse

/-- `normalizeName` from the sources: `name.trim().toLowerCase()`. -/
def normalizeName (s : String) : String := strLower ⟨trimChars s.data⟩

lemma dropWhile_ws_append (ws cs : List Char) (h : ∀ c ∈ ws, isWs c = true) :
    (ws ++ cs).dropWhile isWs = cs.dropWhile isWs := by
  induction ws with
  | nil => rfl
  | cons a t ih =>
    have ha : isWs a = true := h a (List.mem_cons_self a t)
    simp only [List.cons_append, List.dropWhile_cons, ha, if_true]
    exact ih (fun c hc => h c (List.mem_cons_of_mem a hc))

lemma trimChars_pad (ws ws' cs : List Char)
    (h : ∀ c ∈ ws, isWs c = true) (h' : ∀ c ∈ ws', isWs c = true) :
    trimChars (ws ++ cs ++ ws') = trimChars cs := by
  unfold trimChars
  rw [List.append_assoc, dropWhile_ws_append ws (cs ++ ws') h]
  by_cases hcs : cs.dropWhile isWs = []
  · have hall : ∀ c ∈ cs, isWs c = true := by
      intro c hc; exact List.dropWhile_eq_nil_iff.mp hcs c hc
    have hw : ws'.dropWhile isWs = [] := List.dropWhile_eq_nil_iff.mpr h'
    rw [dropWhile_ws_append cs ws' hall, hw, hcs]
  · have hsplit : (cs ++ ws').dropWhile isWs = cs.dropWhile isWs ++ ws' := by
      rw [List.dropWhile_append]
      have : (cs.dropWhile isWs).isEmpty = false := by
        cases hh : cs.dropWhile isWs with
        | nil => exact absurd hh hcs
        | cons a t => rfl
      rw [this]
      simp
    rw [hsplit, List.reverse_append, dropWhile_ws_append ws'.reverse _
      (fun c hc => h' c (List.mem_reverse.mp hc))]

/-- C9 -- `normalizeName` is a total function on strings (non-ASCII included:
it lowercases Cyrillic rather than rejecting it), it identifies
surrounding-whitespace variants of any string, and it maps the three
case/whitespace variants of "John Smith" to the same canonical key. -/
theorem normalizeName_total_case_ws_equiv :
    (∀ s : String, normalizeName ("  " ++ s ++ "  ") = normalizeName s) ∧
    normalizeName "John Smith" = normalizeName " john smith " ∧
    normalizeName " john smith " = normalizeName "JOHN SMITH" ∧
    normalizeName " Иван Петров " = "иван петров" := by
  refine ⟨fun s => ?_, by decide, by decide, by decide⟩
  show strLower _ = strLower _
  congr 1
  apply congrArg
  have hdata : ("  " ++ s ++ "  ").data = [' ', ' '] ++ s.data ++ [' ', ' '] := by
    simp [String.data_append]
  rw [hdata]
  exact trimChars_pad _ _ _ (by decide) (by decide)

/-! ## Index Store

The SQLite table `name_index (name TEXT COLLATE NOCASE, notion_page_id TEXT
UNIQUE)` is modelled as a list of rows in rowid order; `INSERT` appends (the
column is `AUTOINCREMENT`, rows are never deleted), so list order is insertion
order and an un-`ORDER BY`ed equality `SELECT` driven by `idx_name` returns
matches in that order.  `COLLATE NOCASE` compares names after ASCII-only case
folding, which is exactly SQLite's NOCASE collation. -/

/-- One row of `name_index`. -/
structure Entry where
  name : String
  pageId : String
deriving DecidableEq, Repr

/-- SQLite ASCII-only case folding (one character). -/
def asciiLowerChar (c : Char) : Char :=
  if 'A' ≤ c ∧ c ≤ 'Z' then Char.ofNat (c.toNat + 32) else c

/-- SQLite ASCII-only case folding of a string. -/
def asciiLower (s : String) : String := ⟨s.data.map asciiLowerChar⟩

/-- `COLLATE NOCASE` equality on the `name` column. -/
def nocaseEq (a b : String) : Bool := asciiLower a = asciiLower b

/-- Whether `recordID` is already indexed (the `UNIQUE` constraint's test). -/
def hasPageId (db : List Entry) (pid : String) : Bool :=
  db.any (fun e => e.pageId = pid)

/-- `findDuplicatePages` (webhook handler):
`SELECT notion_page_id FROM name_index WHERE name = ?`, rows in rowid order. -/
def findDuplicatePages (db : List Entry) (normalizedName : String) : List String :=
  (db.filter (fun e => nocaseEq e.name normalizedName)).map (fun e => e.pageId)

/-- `insertIntoIndex` (index builder): normalizes the name, `INSERT`s; the
`UNIQUE` violation is caught and reported as `false`, a fresh insert appends a
row and reports `true`. -/
def insertIntoIndex (db : List Entry) (name pageId : String) : Bool × List Entry :=
  if hasPageId db pageId then (false, db)
  else (true, db ++ [⟨normalizeName name, pageId⟩])

/-- `insertIntoIndex` with the backend's failure mode made explicit: a fault
whose message is not a `UNIQUE constraint` violation is re-thrown by the
`catch` block, every other outcome follows `insertIntoIndex`. -/
def insertIntoIndexFallible (fault : Option String) (db : List Entry)
    (name pageId : String) : Except String (Bool × List Entry) :=
  match fault with
  | some msg => .error msg
  | none => .ok (insertIntoIndex db name pageId)

/-- `insertNameIndex` (webhook handler): same insert, but returns no flag;
the `UNIQUE constraint` error is swallowed, other faults propagate. -/
def insertNameIndexFallible (fault : Option String) (db : List Entry)
    (name pageId : String) : Except String (List Entry) :=
  match fault with
  | some msg => .error msg
  | none => .ok (insertIntoIndex db name pageId).2

/-- C4 -- `findDuplicatePages key` returns exactly the record IDs of the rows
whose name equals the key under the store's case-insensitive collation, and it
returns them in store (= insertion) order: the output is a sublist of the
rowid-ordered column of IDs, and a fresh `insert` appends its row at the end. -/
theorem findDuplicatePages_complete_insertion_order :
    ∀ (db : List Entry) (key : String),
      (∀ pid, pid ∈ findDuplicatePages db key ↔
        ∃ e ∈ db, e.pageId = pid ∧ nocaseEq e.name key = true) ∧
      (findDuplicatePages db key).Sublist (db.map (fun e => e.pageId)) ∧
      (∀ (name pid : String), hasPageId db pid = false →
        (insertIntoIndex db name pid).2 = db ++ [⟨normalizeName name, pid⟩]) := by
  intro db key
  refine ⟨fun pid => ?_, ?_, fun name pid hfree => ?_⟩
  · simp only [findDuplicatePages, List.mem_map, List.mem_filter]
    constructor
    · rintro ⟨e, ⟨he, hn⟩, rfl⟩
      exact ⟨e, he, rfl, hn⟩
    · rintro ⟨e, he, rfl, hn⟩
      exact ⟨e, ⟨he, hn⟩, rfl⟩
  · exact List.Sublist.map _ (List.filter_sublist db)
  · simp [insertIntoIndex, hfree]

/-- C4 witness at a concrete store. -/
theorem findDuplicatePages_complete_insertion_order_witness :
    "p1" ∈ findDuplicatePages [⟨"acme", "p1"⟩, ⟨"bcorp", "p2"⟩] "Acme" ∧
    (insertIntoIndex [⟨"acme", "p1"⟩] "Acme" "p3").2 =
      [⟨"acme", "p1"⟩, ⟨"acme", "p3"⟩] := by
  constructor
  · exact ((findDuplicatePages_complete_insertion_order
      [⟨"acme", "p1"⟩, ⟨"bcorp", "p2"⟩] "Acme").1 "p1").mpr
      ⟨⟨"acme", "p1"⟩, by decide, rfl, by decide⟩
  · have := (findDuplicatePages_complete_insertion_order
      [⟨"acme", "p1"⟩] "Acme").2.2 "Acme" "p3" (by decide)
    rw [this]
    decide

/-- C5 -- inserting the same `(name, recordID)` twice leaves exactly one row
for that recordID: starting from a store not containing the ID, the first call
inserts and returns `true`, the second call returns `false` (no error) and
changes nothing, and the resulting store has exactly one row with that ID;
a backend failure other than the uniqueness violation is propagated. -/
theorem insertIntoIndex_idempotent (db : List Entry) (name pid : String)
    (hfree : hasPageId db pid = false) :
    (insertIntoIndex db name pid).1 = true ∧
    insertIntoIndex (insertIntoIndex db name pid).2 name pid =
      (false, (insertIntoIndex db name pid).2) ∧
    ((insertIntoIndex db name pid).2.filter (fun e => e.pageId = pid)).length = 1 ∧
    (∀ msg, insertIntoIndexFallible (some msg) db name pid = .error msg) := by
  have hdb2 : (insertIntoIndex db name pid).2 = db ++ [⟨normalizeName name, pid⟩] := by
    simp [insertIntoIndex, hfree]
  have hmem : hasPageId (insertIntoIndex db name pid).2 pid = true := by
    rw [hdb2]
    simp [hasPageId]
  refine ⟨by simp [insertIntoIndex, hfree], ?_, ?_, fun msg => rfl⟩
  · rw [hdb2]
    simp [insertIntoIndex, hasPageId]
  · rw [hdb2, List.filter_append]
    have h0 : db.filter (fun e => e.pageId = pid) = [] := by
      rw [List.filter_eq_nil_iff]
      intro e he hpe
      have : db.any (fun e => e.pageId = pid) = true :=
        List.any_eq_true.mpr ⟨e, he, hpe⟩
      rw [hasPageId] at hfree
      rw [hfree] at this
      exact absurd this (by decide)
    rw [h0]
    simp

/-- C5 witness at a concrete store. -/
theorem insertIntoIndex_idempotent_witness :
    (insertIntoIndex [⟨"acme", "p9"⟩] "John Smith" "p1").1 = true ∧
    insertIntoIndex (insertIntoIndex [⟨"acme", "p9"⟩] "John Smith" "p1").2
        "John Smith" "p1" =
      (false, (insertIntoIndex [⟨"acme", "p9"⟩] "John Smith" "p1").2) ∧
    ((insertIntoIndex [⟨"acme", "p9"⟩] "John Smith" "p1").2.filter
        (fun e => e.pageId = "p1")).length = 1 ∧
    (∀ msg, insertIntoIndexFallible (some msg) [⟨"acme", "p9"⟩] "John Smith" "p1" =
      .error msg) :=
  insertIntoIndex_idempotent [⟨"acme", "p9"⟩] "John Smith" "p1" (by decide)

/-! ## Real-time Detector (webhook handler, `duplicate-checker-deploy.ts`)

The handler's external collaborators are an environment of oracles:
`fetchTag pid` is `fetchNotionPage(pid)` projected to the page's
`"Duplicate Flag"` select value (`none` = field unset), `patchTag pid` is the
PATCH that sets the flag, and `insertFault` is an optional non-uniqueness
backend failure of the index insert.  The result records the response
(status + body shape), the index after the call, and the lookup / page-fetch
/ PATCH attempts made, in order. -/

/-- Parsed webhook payload: `id` and
`properties["клиент"].title[0].plain_text` (absent when the optional chain
fails). -/
structure PageData where
  id : Option String
  clientName : Option String
deriving DecidableEq, Repr

/-- An inbound HTTP request: method and the JSON parse outcome of the body. -/
structure WebhookReq where
  method : String
  body : Except Unit PageData
deriving Repr

/-- The Notion API and index backend as oracles. -/
structure NotionEnv where
  fetchTag : String → Except String (Option String)
  patchTag : String → Except String Unit
  insertFault : Option String

/-- Does a select value carry the duplicate marker
(`existingTag?.name?.toLowerCase() === "duplicate"`)? -/
def isDuplicateTag : Option String → Bool
  | some n => strLower n = "duplicate"
  | none => false

/-- `updateNotionTags` (webhook): skip when already tagged, otherwise PATCH. -/
def updateNotionTags (env : NotionEnv) (pageId : String)
    (existingTag : Option String) : Except String Unit :=
  if isDuplicateTag existingTag then .ok () else env.patchTag pageId

/-- Tag one *other* duplicate inside its per-page `try/catch`: returns the
fetch and PATCH attempts made (all failures are swallowed). -/
def tagOtherAttempts (env : NotionEnv) (pid : String) : List String × List String :=
  match env.fetchTag pid with
  | .error _ => ([pid], [])
  | .ok tag => if isDuplicateTag tag then ([pid], []) else ([pid], [pid])

/-- The fan-out loop over all other duplicates, in order. -/
def tagOthersAttempts (env : NotionEnv) : List String → List String × List String
  | [] => ([], [])
  | pid :: rest =>
    let (f, p) := tagOtherAttempts env pid
    let (fs, ps) := tagOthersAttempts env rest
    (f ++ fs, p ++ ps)

/-- The response bodies the handler can produce. -/
inductive HandlerBody
  | methodNotAllowed
  | skippedInvalidJson
  | skippedMissingId
  | skippedMissingName
  | duplicateTagged (count : Nat)
  | uniqueIndexed
  | internalError (msg : String)
deriving DecidableEq, Repr

/-- `success` field of the JSON body (absent fields read as `false`). -/
def bodySuccess : HandlerBody → Bool
  | .duplicateTagged _ => true
  | .uniqueIndexed => true
  | _ => false

/-- `skipped` field of the JSON body (absent fields read as `false`). -/
def bodySkipped : HandlerBody → Bool
  | .skippedInvalidJson => true
  | .skippedMissingId => true
  | .skippedMissingName => true
  | _ => false

/-- Everything observable about one handler call. -/
structure HandlerResult where
  status : Nat
  body : HandlerBody
  db : List Entry
  lookups : List String
  fetches : List String
  patches : List String
deriving DecidableEq, Repr

/-- `handler` (webhook): method check, JSON parse, field validation, duplicate
lookup, tagging fan-out, unconditional-within-the-branch index insert; the
outer `catch` converts any uncaught failure into a 200 response with an error
body and no further effects. -/
def handler (env : NotionEnv) (db : List Entry) (req : WebhookReq) : HandlerResult :=
  if req.method ≠ "POST" then ⟨405, .methodNotAllowed, db, [], [], []⟩
  else
    match req.body with
    | .error _ => ⟨200, .skippedInvalidJson, db, [], [], []⟩
    | .ok pd =>
      match pd.id with
      | none => ⟨200, .skippedMissingId, db, [], [], []⟩
      | some pageId =>
        match pd.clientName with
        | none => ⟨200, .skippedMissingName, db, [], [], []⟩
        | some name =>
          if name = "" then ⟨200, .skippedMissingName, db, [], [], []⟩
          else
            let normalizedName := normalizeName name
            let duplicatePageIds := findDuplicatePages db normalizedName
            let otherDuplicates := duplicatePageIds.filter (fun i => i ≠ pageId)
            if otherDuplicates.isEmpty then
              match insertNameIndexFallible env.insertFault db name pageId with
              | .error msg => ⟨200, .internalError msg, db, [normalizedName], [], []⟩
              | .ok db2 => ⟨200, .uniqueIndexed, db2, [normalizedName], [], []⟩
            else
              match env.fetchTag pageId with
              | .error msg =>
                ⟨200, .internalError msg, db, [normalizedName], [pageId], []⟩
              | .ok currentTag =>
                match updateNotionTags env pageId currentTag with
                | .error msg =>
                  ⟨200, .internalError msg, db, [normalizedName], [pageId], [pageId]⟩
                | .ok _ =>
                  let ownPatch := if isDuplicateTag currentTag then [] else [pageId]
                  let (fs, ps) := tagOthersAttempts env otherDuplicates
                  match insertNameIndexFallible env.insertFault db name pageId with
                  | .error msg =>
                    ⟨200, .internalError msg, db, [normalizedName],
                      pageId :: fs, ownPatch ++ ps⟩
                  | .ok db2 =>
                    ⟨200, .duplicateTagged otherDuplicates.length, db2,
                      [normalizedName], pageId :: fs, ownPatch ++ ps⟩

lemma hasPageId_insertIntoIndex (db : List Entry) (name pid : String) :
    hasPageId (insertIntoIndex db name pid).2 pid = true := by
  unfold insertIntoIndex
  by_cases h : hasPageId db pid = true
  · rw [if_pos h]
    exact h
  · rw [if_neg h]
    unfold hasPageId
    rw [List.any_append]
    simp [List.any_cons]

/-- The concrete environment of the C2 counterexample: fetching any page's
tag state fails, everything else works. -/
def c2Env : NotionEnv := ⟨fun _ => .error "page fetch failed", fun _ => .ok (), none⟩

/-- Index already holding one record named `smith`. -/
def c2Db : List Entry := [⟨"smith", "p1"⟩]

/-- A valid event for a second record with the same name. -/
def c2Req : WebhookReq := ⟨"POST", .ok ⟨some "p2", some "Smith"⟩⟩

/-- C2 counterexample -- an event whose name has another indexed match
(`findDuplicatePages` is non-empty) but whose own tag-state fetch fails: the
handler answers with an internal-error body and does **not** insert
`(rawName, recordID)` into the Index Store, refuting "inserts ... regardless
of whether the tagging sub-steps succeed or fail". -/
theorem handler_insert_skipped_on_own_fetch_failure :
    (findDuplicatePages c2Db (normalizeName "Smith")).filter
      (fun i => i ≠ "p2") ≠ [] ∧
    (handler c2Env c2Db c2Req).db = c2Db ∧
    hasPageId (handler c2Env c2Db c2Req).db "p2" = false ∧
    (handler c2Env c2Db c2Req).body = .internalError "page fetch failed" := by
  refine ⟨by decide, ?_, ?_, ?_⟩ <;> rfl

/-- C2 amended -- when the event's *own* tagging sub-steps succeed (its tag
state is fetched and it is tagged or already tagged) and the index backend
itself does not fault, the handler inserts `(rawName, recordID)` into the
Index Store regardless of the outcome of tagging the other matches (the
environment's behaviour on every other page ID is arbitrary); but a failure
fetching or tagging the event's own record aborts the handler before the
insert. -/
theorem handler_inserts_after_own_tagging (env : NotionEnv) (db : List Entry)
    (pageId name : String) (tag : Option String)
    (hname : name ≠ "")
    (hothers : (findDuplicatePages db (normalizeName name)).filter
      (fun i => i ≠ pageId) ≠ [])
    (hfetch : env.fetchTag pageId = .ok tag)
    (hupd : updateNotionTags env pageId tag = .ok ())
    (hins : env.insertFault = none) :
    (handler env db ⟨"POST", .ok ⟨some pageId, some name⟩⟩).db =
      (insertIntoIndex db name pageId).2 ∧
    hasPageId (handler env db ⟨"POST", .ok ⟨some pageId, some name⟩⟩).db
      pageId = true := by
  have hne : (((findDuplicatePages db (normalizeName name)).filter
      (fun i => i ≠ pageId)).isEmpty) = false := by
    cases hh : (findDuplicatePages db (normalizeName name)).filter
      (fun i => i ≠ pageId) with
    | nil => exact absurd hh hothers
    | cons a t => rfl
  have hr : (handler env db ⟨"POST", .ok ⟨some pageId, some name⟩⟩).db =
      (insertIntoIndex db name pageId).2 := by
    unfold handler
    rw [if_neg (by simp)]
    simp only [hname, if_false, hne, Bool.false_eq_true, if_neg,
      hfetch, hupd, hins, insertNameIndexFallible]
  exact ⟨hr, by rw [hr]; exact hasPageId_insertIntoIndex db name pageId⟩

/-- C2 amended, witness: concrete environment in which tagging the other
match fails (its fetch errors) yet the new record is inserted. -/
theorem handler_inserts_after_own_tagging_witness :
    (handler ⟨fun p => if p = "p2" then .ok none else .error "other page gone",
        fun _ => .ok (), none⟩
      [⟨"smith", "p1"⟩] ⟨"POST", .ok ⟨some "p2", some "Smith"⟩⟩).db =
      (insertIntoIndex [⟨"smith", "p1"⟩] "Smith" "p2").2 ∧
    hasPageId (handler
      ⟨fun p => if p = "p2" then .ok none else .error "other page gone",
        fun _ => .ok (), none⟩
      [⟨"smith", "p1"⟩] ⟨"POST", .ok ⟨some "p2", some "Smith"⟩⟩).db "p2" = true :=
  handler_inserts_after_own_tagging _ [⟨"smith", "p1"⟩] "p2" "Smith" none
    (by decide) (by decide) rfl rfl rfl

/-- C6 -- an event whose name field is absent or empty is acknowledged with
status 200, `success = false`, `skipped = true`, and the Index Store is not
mutated; no error is surfaced to the caller. -/
theorem handler_skips_missing_or_empty_name (env : NotionEnv) (db : List Entry)
    (pid : String) (nameOpt : Option String)
    (hname : nameOpt = none ∨ nameOpt = some "") :
    (handler env db ⟨"POST", .ok ⟨some pid, nameOpt⟩⟩).status = 200 ∧
    bodySuccess (handler env db ⟨"POST", .ok ⟨some pid, nameOpt⟩⟩).body = false ∧
    bodySkipped (handler env db ⟨"POST", .ok ⟨some pid, nameOpt⟩⟩).body = true ∧
    (handler env db ⟨"POST", .ok ⟨some pid, nameOpt⟩⟩).db = db := by
  rcases hname with h | h <;> subst h <;> exact ⟨rfl, rfl, rfl, rfl⟩

/-- C6 witness: a concrete empty-name event. -/
theorem handler_skips_missing_or_empty_name_witness :
    (handler ⟨fun _ => .ok none, fun _ => .ok (), none⟩ [⟨"acme", "p1"⟩]
      ⟨"POST", .ok ⟨some "p7", some ""⟩⟩).status = 200 ∧
    bodySuccess (handler ⟨fun _ => .ok none, fun _ => .ok (), none⟩ [⟨"acme", "p1"⟩]
      ⟨"POST", .ok ⟨some "p7", some ""⟩⟩).body = false ∧
    bodySkipped (handler ⟨fun _ => .ok none, fun _ => .ok (), none⟩ [⟨"acme", "p1"⟩]
      ⟨"POST", .ok ⟨some "p7", some ""⟩⟩).body = true ∧
    (handler ⟨fun _ => .ok none, fun _ => .ok (), none⟩ [⟨"acme", "p1"⟩]
      ⟨"POST", .ok ⟨some "p7", some ""⟩⟩).db = [⟨"acme", "p1"⟩] :=
  handler_skips_missing_or_empty_name _ _ "p7" (some "") (Or.inr rfl)

/-- C10 -- a request whose method is not POST gets status 405 with the error
body and causes no index lookup, no page fetch, no PATCH and no index change;
and this is the only non-200 response: every POST request is answered 200. -/
theorem handler_405_only_for_non_post (env : NotionEnv) (db : List Entry)
    (req : WebhookReq) :
    (req.method ≠ "POST" →
      handler env db req = ⟨405, .methodNotAllowed, db, [], [], []⟩) ∧
    (req.method = "POST" → (handler env db req).status = 200) := by
  constructor
  · intro h
    unfold handler
    rw [if_pos h]
  · intro h
    unfold handler
    rw [if_neg (by simp [h])]
    rcases req with ⟨m, body⟩
    rcases body with _ | pd
    · rfl
    rcases pd with ⟨id?, name?⟩
    rcases id? with _ | pid
    · rfl
    rcases name? with _ | name
    · rfl
    simp only
    split
    · rfl
    · split
      · split <;> rfl
      · split
        · rfl
        · split
          · rfl
          · split <;> rfl

/-- C10 witness: a concrete GET request and a concrete POST request. -/
theorem handler_405_only_for_non_post_witness :
    handler ⟨fun _ => .ok none, fun _ => .ok (), none⟩ []
      ⟨"GET", .ok ⟨some "p1", some "x"⟩⟩ =
      ⟨405, .methodNotAllowed, [], [], [], []⟩ ∧
    (handler ⟨fun _ => .ok none, fun _ => .ok (), none⟩ []
      ⟨"POST", .ok ⟨some "p1", some "x"⟩⟩).status = 200 :=
  ⟨(handler_405_only_for_non_post _ _ _).1 (by decide),
   (handler_405_only_for_non_post _ _ _).2 rfl⟩

/-! ## Retry / backoff policy

`retryWithBackoff` exists three times in the sources: in the webhook handler
and the index builder it retries only rate-limit errors (message containing
`429` or `Rate limit`); in the local backfill it *also* retries server errors
(`502`/`500`/`503`/`504`/`Internal server error`).  The wrapped operation is
an oracle from attempt number to outcome; the model returns the final outcome
together with the list of backoff delays actually waited
(`initialDelay * 2 ^ attempt`, in order). -/

/-- Is `pat` a prefix of the character list? (`String.prototype.includes`
helper.) -/
def startsWithChars : List Char → List Char → Bool
  | _, [] => true
  | [], _ :: _ => false
  | a :: as, b :: bs => a = b && startsWithChars as bs

/-- Does the character list contain `pat` as a contiguous run? -/
def hasSubstrChars (pat : List Char) : List Char → Bool
  | [] => startsWithChars [] pat
  | a :: t => startsWithChars (a :: t) pat || hasSubstrChars pat t

/-- JavaScript `String.prototype.includes`. -/
def strIncludes (s pat : String) : Bool := hasSubstrChars pat.data s.data

/-- `error.message?.includes("429") || error.message?.includes("Rate limit")`. -/
def isRateLimitError (msg : String) : Bool :=
  strIncludes msg "429" || strIncludes msg "Rate limit"

/-- The backfill's additional server-error test (`502`/`500`/`503`/`504`/
`Internal server error`). -/
def isServerError (msg : String) : Bool :=
  strIncludes msg "502" || strIncludes msg "500" || strIncludes msg "503" ||
  strIncludes msg "504" || strIncludes msg "Internal server error"

/-- The shared retry loop: attempt `fn i`; on a retryable failure wait
`initialDelay * 2 ^ i` and continue, otherwise re-throw; after the last
attempt throw the last error.  Returns the outcome and the delays waited. -/
def retryGo {α : Type} (fn : Nat → Except String α) (retryable : String → Bool)
    (initialDelay : Nat) (i : Nat) (lastErr : String) :
    Nat → Except String α × List Nat
  | 0 => (.error lastErr, [])
  | fuel + 1 =>
    match fn i with
    | .ok a => (.ok a, [])
    | .error e =>
      if retryable e then
        let r := retryGo fn retryable initialDelay (i + 1) e fuel
        (r.1, initialDelay * 2 ^ i :: r.2)
      else (.error e, [])

/-- `retryWithBackoff` of `duplicate-checker-deploy.ts` (rate limit only). -/
def retryWithBackoffWebhook {α : Type} (fn : Nat → Except String α)
    (maxRetries initialDelay : Nat) : Except String α × List Nat :=
  retryGo fn isRateLimitError initialDelay 0 "" maxRetries

/-- `retryWithBackoff` of `index-builder-deploy.ts` (rate limit only). -/
def retryWithBackoffBuilder {α : Type} (fn : Nat → Except String α)
    (maxRetries initialDelay : Nat) : Except String α × List Nat :=
  retryGo fn isRateLimitError initialDelay 0 "" maxRetries

/-- `retryWithBackoff` of `backfill-local-deploy.ts` (rate limit *or* server
error). -/
def retryWithBackoffBackfill {α : Type} (fn : Nat → Except String α)
    (maxRetries initialDelay : Nat) : Except String α × List Nat :=
  retryGo fn (fun e => isRateLimitError e || isServerError e)
    initialDelay 0 "" maxRetries

/-- C3 counterexample -- the backfill's `retryWithBackoff` (one of the three
wrappers the claim covers) retries a `502` server error, which carries no
rate-limit signal: three backoff waits happen instead of immediate
propagation, refuting "only rate-limit failures are retried". -/
theorem retryWithBackoff_retries_server_error :
    isRateLimitError "502 Bad Gateway" = false ∧
    retryWithBackoffBackfill (α := Unit) (fun _ => .error "502 Bad Gateway")
      3 1000 = (.error "502 Bad Gateway", [1000, 2000, 4000]) := by
  constructor
  · decide
  · rfl

/-- C3 amended -- the webhook and index-builder wrappers retry only failures
carrying a rate-limit signal; the backfill wrapper also retries server-error
(5xx) failures; every retried attempt waits `initialDelay * 2 ^ attempt`, up
to `maxAttempts = 3` attempts, after which the last failure is thrown; any
failure outside the variant's retryable set is propagated immediately with no
retry and no wait. -/
theorem retryWithBackoff_policy {α : Type} (fn : Nat → Except String α) (d : Nat) :
    (∀ e, fn 0 = .error e → isRateLimitError e = false →
      retryWithBackoffWebhook fn 3 d = (.error e, []) ∧
      retryWithBackoffBuilder fn 3 d = (.error e, [])) ∧
    (∀ e, fn 0 = .error e → isRateLimitError e = false → isServerError e = false →
      retryWithBackoffBackfill fn 3 d = (.error e, [])) ∧
    (∀ e0 e1 e2, fn 0 = .error e0 → fn 1 = .error e1 → fn 2 = .error e2 →
      isRateLimitError e0 = true → isRateLimitError e1 = true →
      isRateLimitError e2 = true →
      retryWithBackoffWebhook fn 3 d =
        (.error e2, [d * 2 ^ 0, d * 2 ^ 1, d * 2 ^ 2])) ∧
    (∀ e0 a, fn 0 = .error e0 → isRateLimitError e0 = true → fn 1 = .ok a →
      retryWithBackoffWebhook fn 3 d = (.ok a, [d * 2 ^ 0])) := by
  refine ⟨fun e h0 hrl => ?_, fun e h0 hrl hsrv => ?_,
    fun e0 e1 e2 h0 h1 h2 r0 r1 r2 => ?_, fun e0 a h0 r0 h1 => ?_⟩
  · constructor <;>
    · simp only [retryWithBackoffWebhook, retryWithBackoffBuilder, retryGo,
        h0, hrl]
      rfl
  · simp only [retryWithBackoffBackfill, retryGo, h0, hrl, hsrv]
    rfl
  · simp only [retryWithBackoffWebhook, retryGo, h0, h1, h2, r0, r1, r2,
      if_true]
  · simp only [retryWithBackoffWebhook, retryGo, h0, h1, r0, if_true]

/-- C3 amended, witness: an authentication failure is propagated with no
waits; a persistent rate-limit failure is retried with waits 1000, 2000,
4000 ms. -/
theorem retryWithBackoff_policy_witness :
    retryWithBackoffWebhook (α := Unit) (fun _ => .error "401 Unauthorized")
      3 1000 = (.error "401 Unauthorized", []) ∧
    retryWithBackoffWebhook (α := Unit) (fun _ => .error "429") 3 1000 =
      (.error "429", [1000, 2000, 4000]) := by
  constructor
  · exact ((retryWithBackoff_policy (fun _ => .error "401 Unauthorized") 1000).1
      "401 Unauthorized" rfl (by decide)).1
  · have h := (retryWithBackoff_policy (α := Unit) (fun _ => .error "429")
      1000).2.2.1 "429" "429" "429" rfl rfl rfl (by decide) (by decide) (by decide)
    simpa using h

/-! ## Bulk backfill (Reconciler, `backfill-local-deploy.ts`)

`main` runs `fetchAllPages` (the record set as an in-memory snapshot),
`buildDuplicateMap` (a JavaScript `Map` from `normalizeName(name)` to the
pages carrying that key, in insertion order), then `tagDuplicates` (for every
group of two or more pages, fetch each page's current tags and add
`"Duplicate"` unless present; groups of at most one page are skipped with
`continue`).  The external record store is the list of pages itself;
`fetchNotionPage` reads the current entry, the PATCH rewrites it, a per-page
`try/catch` turns a missing page into a no-op.  `DRY_RUN` is `false` in the
source. -/

/-- A record snapshot: `id`, the `клиент` title text (absent when the
property/title is missing) and the `Duplicate Flag` multi-select values. -/
structure BPage where
  id : String
  name : Option String
  tags : List String
deriving DecidableEq, Repr

/-- `multi_select` duplicate test:
`tags.some(tag => tag.name.toLowerCase() === "duplicate")`. -/
def hasDuplicateTag (tags : List String) : Bool :=
  tags.any (fun t => strLower t = "duplicate")

/-- The canonical key `buildDuplicateMap` files a page under: absent when the
page's name is missing or empty (`if (!name) continue`). -/
def pageKeyB (p : BPage) : Option String :=
  match p.name with
  | none => none
  | some n => if n = "" then none else some (normalizeName n)

/-- `nameMap.get(key).push(page)` with creation of a fresh key at the end,
the insertion behaviour of a JavaScript `Map`. -/
def mapInsert (m : List (String × List BPage)) (k : String) (p : BPage) :
    List (String × List BPage) :=
  if m.any (fun kv => kv.1 = k) then
    m.map (fun kv => if kv.1 = k then (kv.1, kv.2 ++ [p]) else kv)
  else m ++ [(k, [p])]

/-- `buildDuplicateMap`: group the fetched pages by canonical key, skipping
pages without a usable name. -/
def buildDuplicateMap (pages : List BPage) : List (String × List BPage) :=
  pages.foldl
    (fun m p =>
      match pageKeyB p with
      | none => m
      | some k => mapInsert m k p)
    []

/-- `updateNotionTags` (backfill) applied through the store: fetch the page
with this id, add `"Duplicate"` to its tags unless already present; a page
that is not in the store is left to the per-page `catch` (no-op). -/
def tagPageInStore (st : List BPage) (pid : String) : List BPage :=
  st.map (fun q =>
    if q.id = pid then
      if hasDuplicateTag q.tags then q else { q with tags := q.tags ++ ["Duplicate"] }
    else q)

/-- The inner loop of `tagDuplicates` over one duplicate group. -/
def tagGroup (st : List BPage) (pages : List BPage) : List BPage :=
  pages.foldl (fun s q => tagPageInStore s q.id) st

/-- `tagDuplicates`: process every group, skipping groups of at most one
page (`if (pages.length <= 1) continue`). -/
def tagDuplicates (groups : List (String × List BPage)) (st : List BPage) :
    List BPage :=
  groups.foldl
    (fun s kg => if kg.2.length ≤ 1 then s else tagGroup s kg.2) st

/-- `main`: fetch the whole set, build the duplicate map, tag duplicates. -/
def runBackfill (store : List BPage) : List BPage :=
  tagDuplicates (buildDuplicateMap store) store

/-- Is the record with this id currently tagged in the store? -/
def taggedInStore (st : List BPage) (pid : String) : Bool :=
  st.any (fun p => p.id = pid && hasDuplicateTag p.tags)

/-- C1 counterexample -- Scenario D's premise run through the code: record 5
is tagged and no other record shares its name, yet a full backfill run leaves
the store unchanged and record 5 still tagged — `tagDuplicates` skips
one-member groups and no phase of `main` ever removes a tag, refuting "that
record no longer carries the tag". -/
theorem runBackfill_keeps_false_positive_tag :
    runBackfill [⟨"5", some "Eve", ["Duplicate"]⟩] =
      [⟨"5", some "Eve", ["Duplicate"]⟩] ∧
    taggedInStore (runBackfill [⟨"5", some "Eve", ["Duplicate"]⟩]) "5" = true := by
  constructor <;> rfl

/-- Where an element of `mapInsert m k p` comes from. -/
lemma mapInsert_mem {m : List (String × List BPage)} {k : String} {p : BPage}
    {kg : String × List BPage} (h : kg ∈ mapInsert m k p) :
    kg ∈ m ∨ (∃ kg₀ ∈ m, kg₀.1 = k ∧ kg = (kg₀.1, kg₀.2 ++ [p])) ∨ kg = (k, [p]) := by
  unfold mapInsert at h
  by_cases hk : m.any (fun kv => kv.1 = k) = true
  · rw [if_pos hk] at h
    rcases List.mem_map.mp h with ⟨kv, hkv, heq⟩
    by_cases hkvk : kv.1 = k
    · right; left
      exact ⟨kv, hkv, hkvk, by rw [← heq, if_pos hkvk]⟩
    · left
      rw [← heq, if_neg hkvk]
      exact hkv
  · rw [if_neg hk] at h
    rcases List.mem_append.mp h with h1 | h1
    · exact Or.inl h1
    · right; right
      simpa using h1

/-- Invariant of the grouping fold: every page filed in a group satisfies the
ambient property and carries that group's key. -/
lemma buildDuplicateMap_inv (P : BPage → Prop) :
    ∀ (pages : List BPage) (m : List (String × List BPage)),
      (∀ kg ∈ m, ∀ q ∈ kg.2, P q ∧ pageKeyB q = some kg.1) →
      (∀ q ∈ pages, P q) →
      ∀ kg ∈ pages.foldl
        (fun m p => match pageKeyB p with | none => m | some k => mapInsert m k p) m,
        ∀ q ∈ kg.2, P q ∧ pageKeyB q = some kg.1 := by
  intro pages
  induction pages with
  | nil => intro m hm _; simpa using hm
  | cons p rest ih =>
    intro m hm hP
    simp only [List.foldl_cons]
    have hPp : P p := hP p (List.mem_cons_self p rest)
    have hPrest : ∀ q ∈ rest, P q := fun q hq => hP q (List.mem_cons_of_mem p hq)
    cases hkey : pageKeyB p with
    | none => exact ih m (by simpa [hkey] using hm) hPrest
    | some k =>
      refine ih (mapInsert m k p) ?_ hPrest
      intro kg hkg q hq
      rcases mapInsert_mem hkg with h1 | ⟨kg₀, hkg₀, hk₀, rfl⟩ | rfl
      · exact hm kg h1 q hq
      · rcases List.mem_append.mp hq with h2 | h2
        · exact hm kg₀ hkg₀ q h2
        · have : q = p := by simpa using h2
          subst this
          exact ⟨hPp, by rw [hkey, hk₀]⟩
      · have : q = p := by simpa using hq
        subst this
        exact ⟨hPp, by rw [hkey]⟩

/-- Invariant of the grouping fold: every group is a sublist of the pages
seen so far, hence contains no page more often than the input does. -/
lemma buildDuplicateMap_sublist :
    ∀ (pages done : List BPage) (m : List (String × List BPage)),
      (∀ kg ∈ m, kg.2.Sublist done) →
      ∀ kg ∈ pages.foldl
        (fun m p => match pageKeyB p with | none => m | some k => mapInsert m k p) m,
        kg.2.Sublist (done ++ pages) := by
  intro pages
  induction pages with
  | nil => intro done m hm; simpa using hm
  | cons p rest ih =>
    intro done m hm
    simp only [List.foldl_cons]
    have hstep : ∀ m', (∀ kg ∈ m', kg.2.Sublist (done ++ [p])) →
        ∀ kg ∈ rest.foldl
          (fun m p => match pageKeyB p with | none => m | some k => mapInsert m k p) m',
          kg.2.Sublist (done ++ p :: rest) := by
      intro m' hm' kg hkg
      have := ih (done ++ [p]) m' hm' kg hkg
      simpa [List.append_assoc] using this
    cases hkey : pageKeyB p with
    | none =>
      refine hstep m (fun kg hkg => ?_)
      exact (hm kg hkg).trans (by simp)
    | some k =>
      refine hstep (mapInsert m k p) (fun kg hkg => ?_)
      rcases mapInsert_mem hkg with h1 | ⟨kg₀, hkg₀, hk₀, rfl⟩ | rfl
      · exact (hm kg h1).trans (by simp)
      · exact List.Sublist.append (hm kg₀ hkg₀) (List.Sublist.refl [p])
      · exact List.sublist_append_right done [p]

/-- Look a record up by id (the head of `fetchNotionPage`'s view of the
store). -/
def findPage (st : List BPage) (pid : String) : Option BPage :=
  st.find? (fun q => q.id == pid)

lemma tagPageInStore_id (q : BPage) (tid : String) :
    (if q.id = tid then
      if hasDuplicateTag q.tags then q else { q with tags := q.tags ++ ["Duplicate"] }
    else q).id = q.id := by
  by_cases h : q.id = tid
  · by_cases ht : hasDuplicateTag q.tags = true <;> simp [h, ht]
  · simp [h]

lemma findPage_tagPageInStore (st : List BPage) (pid tid : String)
    (hne : tid ≠ pid) :
    findPage (tagPageInStore st tid) pid = findPage st pid := by
  induction st with
  | nil => rfl
  | cons q t ih =>
    unfold tagPageInStore at ih ⊢
    rw [List.map_cons]
    unfold findPage at ih ⊢
    rw [List.find?_cons, List.find?_cons]
    by_cases hq : q.id = pid
    · have hqt : ¬ q.id = tid := fun hc => hne (hc ▸ hq.symm ▸ rfl)
      have hfix : (if q.id = tid then
          if hasDuplicateTag q.tags then q
          else { q with tags := q.tags ++ ["Duplicate"] } else q) = q := if_neg hqt
      rw [hfix]
      simp [hq]
    · have h1 : ((if q.id = tid then
          if hasDuplicateTag q.tags then q
          else { q with tags := q.tags ++ ["Duplicate"] } else q).id == pid) = false := by
        rw [tagPageInStore_id]
        exact beq_false_of_ne hq
      have h2 : (q.id == pid) = false := beq_false_of_ne hq
      rw [h1, h2]
      exact ih

lemma findPage_tagGroup (pid : String) (g : List BPage) :
    ∀ st, (∀ q ∈ g, q.id ≠ pid) →
      findPage (tagGroup st g) pid = findPage st pid := by
  induction g with
  | nil => intro st _; rfl
  | cons q t ih =>
    intro st hg
    unfold tagGroup
    rw [List.foldl_cons]
    have h1 : findPage (tagPageInStore st q.id) pid = findPage st pid :=
      findPage_tagPageInStore st pid q.id (hg q (List.mem_cons_self q t))
    have h2 := ih (tagPageInStore st q.id)
      (fun r hr => hg r (List.mem_cons_of_mem q hr))
    unfold tagGroup at h2
    rw [h2, h1]

lemma findPage_tagDuplicates (pid : String)
    (groups : List (String × List BPage)) :
    ∀ st, (∀ kg ∈ groups, 1 < kg.2.length → ∀ q ∈ kg.2, q.id ≠ pid) →
      findPage (tagDuplicates groups st) pid = findPage st pid := by
  induction groups with
  | nil => intro st _; rfl
  | cons kg rest ih =>
    intro st hg
    unfold tagDuplicates
    rw [List.foldl_cons]
    have hrest : ∀ kg' ∈ rest, 1 < kg'.2.length → ∀ q ∈ kg'.2, q.id ≠ pid :=
      fun kg' h => hg kg' (List.mem_cons_of_mem kg h)
    by_cases hlen : kg.2.length ≤ 1
    · rw [if_pos hlen]
      exact ih st hrest
    · rw [if_neg hlen]
      have h1 : findPage (tagGroup st kg.2) pid = findPage st pid :=
        findPage_tagGroup pid kg.2 st
          (hg kg (List.mem_cons_self kg rest) (Nat.lt_of_not_le hlen))
      have h2 := ih (tagGroup st kg.2) hrest
      unfold tagDuplicates at h2
      rw [h2, h1]

lemma length_le_one_of_nodup_const {α : Type} {l : List α} {q : α}
    (hnd : l.Nodup) (hall : ∀ r ∈ l, r = q) : l.length ≤ 1 := by
  match l with
  | [] => simp
  | [a] => simp
  | a :: b :: t =>
    have ha : a = q := hall a (by simp)
    have hb : b = q := hall b (by simp)
    have hnin : a ∉ b :: t := (List.nodup_cons.mp hnd).1
    exact absurd (by rw [ha, hb]; exact List.mem_cons_self q t) hnin

lemma findPage_of_mem (st : List BPage) (p : BPage) (hp : p ∈ st)
    (huniq : ∀ q ∈ st, q.id = p.id → q = p) : findPage st p.id = some p := by
  induction st with
  | nil => exact absurd hp (List.not_mem_nil p)
  | cons q t ih =>
    unfold findPage
    rw [List.find?_cons]
    by_cases hq : q.id = p.id
    · have hqp : q = p := huniq q (List.mem_cons_self q t) hq
      have hbeq : (q.id == p.id) = true := beq_iff_eq.mpr hq
      rw [hbeq]
      simpa using hqp
    · rw [beq_false_of_ne hq]
      have hpt : p ∈ t := by
        rcases List.mem_cons.mp hp with h | h
        · exact absurd (congrArg BPage.id h.symm) hq
        · exact h
      exact ih hpt (fun r hr => huniq r (List.mem_cons_of_mem q hr))

/-- C1 amended -- `main` has no cleanup phase: a record that carries the
duplicate tag but whose group under `normalize(name)` has no other member is
not touched by the run at all — its store entry (tag included) is unchanged,
because `tagDuplicates` skips every group with fewer than two members and no
phase ever removes a tag. -/
theorem runBackfill_singleton_group_unchanged (store : List BPage) (p : BPage)
    (k : String)
    (hid : (store.map BPage.id).Nodup)
    (hp : p ∈ store)
    (htag : hasDuplicateTag p.tags = true)
    (hkey : pageKeyB p = some k)
    (huniq : ∀ q ∈ store, q ≠ p → pageKeyB q ≠ some k) :
    findPage (runBackfill store) p.id = some p ∧
    taggedInStore (runBackfill store) p.id = true := by
  have hinj : ∀ q ∈ store, q.id = p.id → q = p := fun q hq hqp =>
    List.inj_on_of_nodup_map hid hq hp hqp
  have hnd : store.Nodup := List.Nodup.of_map BPage.id hid
  have hinv := buildDuplicateMap_inv (fun q => q ∈ store) store []
    (by simp) (fun q hq => hq)
  have hsub := buildDuplicateMap_sublist store [] [] (by simp)
  have hgroups : ∀ kg ∈ buildDuplicateMap store, 1 < kg.2.length →
      ∀ q ∈ kg.2, q.id ≠ p.id := by
    intro kg hkg hlen q hq hqid
    have hq' := hinv kg hkg q hq
    have hqp : q = p := hinj q hq'.1 hqid
    subst hqp
    have hkk : kg.1 = k := by
      rw [hkey] at hq'
      exact (Option.some_injective _ hq'.2.symm)
    have hall : ∀ r ∈ kg.2, r = q := by
      intro r hr
      have hr' := hinv kg hkg r hr
      by_contra hne
      exact huniq r hr'.1 hne (by rw [hr'.2, hkk])
    have hsubkg : kg.2.Sublist store := by
      have := hsub kg hkg
      simpa using this
    have hnd2 : kg.2.Nodup := List.Nodup.sublist hsubkg hnd
    exact absurd hlen (Nat.not_lt.mpr (length_le_one_of_nodup_const hnd2 hall))
  have hfind : findPage (runBackfill store) p.id = findPage store p.id :=
    findPage_tagDuplicates p.id (buildDuplicateMap store) store hgroups
  have hbase : findPage store p.id = some p := findPage_of_mem store p hp hinj
  refine ⟨hfind.trans hbase, ?_⟩
  have hmem : p ∈ runBackfill store :=
    List.mem_of_find?_eq_some (hfind.trans hbase)
  unfold taggedInStore
  rw [List.any_eq_true]
  exact ⟨p, hmem, by simp [htag]⟩

/-- C1 amended, witness: Scenario D's store — record 5 tagged, name unique
among three records — is unchanged by the run. -/
theorem runBackfill_singleton_group_unchanged_witness :
    findPage (runBackfill [⟨"5", some "Eve", ["Duplicate"]⟩,
      ⟨"6", some "Bob", []⟩, ⟨"7", some "bob", []⟩]) "5" =
      some ⟨"5", some "Eve", ["Duplicate"]⟩ ∧
    taggedInStore (runBackfill [⟨"5", some "Eve", ["Duplicate"]⟩,
      ⟨"6", some "Bob", []⟩, ⟨"7", some "bob", []⟩]) "5" = true :=
  runBackfill_singleton_group_unchanged _ ⟨"5", some "Eve", ["Duplicate"]⟩
    "eve" (by decide) (by decide) (by decide) (by decide)
    (by decide)

/-! ## Resumable Scanner (`index-builder-deploy.ts`)

`indexBuilder` reads the singleton `index_builder_progress` row (creating it
with `(NULL, 0, FALSE)` on first run), adopts a pre-existing index count when
its own total is still zero, returns at once when the row says `completed`,
and otherwise loops: fetch a page at the cursor, mark complete on an empty
batch, else index the batch, persist `(cursor, total, completed)`, and stop
on completion or when the time budget check fires.  Wall-clock readings are
oracles (`timeLimitHit k` is the `while` guard before batch `k`,
`nearLimit k` the 85%-of-budget check after it); `fuel` bounds the loop, and
every theorem holds for every fuel.  The result records the persisted
progress rows in write order. -/

/-- The singleton `index_builder_progress` row (the fields the code reads). -/
structure Progress where
  last_cursor : Option String
  total_indexed : Nat
  completed : Bool
deriving DecidableEq, Repr

/-- A page as the index builder sees it. -/
structure NPage where
  id : String
  name : Option String
deriving DecidableEq, Repr

/-- One page of `queryNotionDatabase` results. -/
structure QueryResponse where
  results : List NPage
  next_cursor : Option String
  has_more : Bool
deriving Repr

/-- The external record source and the wall clock as oracles. -/
structure BuilderEnv where
  query : Option String → QueryResponse
  timeLimitHit : Nat → Bool
  nearLimit : Nat → Bool

/-- `processBatch`: insert every page that has a usable name, counting fresh
inserts only (`UNIQUE`-constraint repeats do not count). -/
def processBatch (db : List Entry) (pages : List NPage) : Nat × List Entry :=
  pages.foldl
    (fun acc p =>
      match p.name with
      | none => acc
      | some n =>
        if n = "" then acc
        else
          let r := insertIntoIndex acc.2 n p.id
          (if r.1 then acc.1 + 1 else acc.1, r.2))
    (0, db)

/-- How one `indexBuilder` invocation ended. -/
inductive BuilderOutcome
  | alreadyCompleted (total : Nat)
  | completeEmptyBatch (total : Nat)
  | complete (total : Nat)
  | paused (total : Nat)
deriving DecidableEq, Repr

/-- Everything observable about one invocation: outcome, final persisted
progress row, index, number of external queries, and the progress rows
persisted along the way, in order. -/
structure LoopOut where
  outcome : BuilderOutcome
  prog : Progress
  db : List Entry
  queries : Nat
  writes : List Progress
deriving Repr

/-- The `while` loop of `indexBuilder` (step 5 of the source). -/
def builderLoop (env : BuilderEnv) :
    Nat → Nat → Option String → Nat → Progress → List Entry → LoopOut
  | 0, _, _, total, prog, db => ⟨.paused total, prog, db, 0, []⟩
  | fuel + 1, k, cursor, total, prog, db =>
    if env.timeLimitHit k then ⟨.paused total, prog, db, 0, []⟩
    else
      let resp := env.query cursor
      let completed := !resp.has_more
      if resp.results.isEmpty then
        ⟨.completeEmptyBatch total, ⟨none, total, true⟩, db, 1, [⟨none, total, true⟩]⟩
      else
        let pb := processBatch db resp.results
        let total2 := total + pb.1
        let pr : Progress := ⟨resp.next_cursor, total2, completed⟩
        if completed then ⟨.complete total2, pr, pb.2, 1, [pr]⟩
        else if env.nearLimit k then ⟨.paused total2, pr, pb.2, 1, [pr]⟩
        else
          let out := builderLoop env fuel (k + 1) resp.next_cursor total2 pr pb.2
          ⟨out.outcome, out.prog, out.db, out.queries + 1, pr :: out.writes⟩

/-- Steps 2-5 of `indexBuilder` once the progress row exists: bootstrap count
adoption, the completed short-circuit, then the batch loop. -/
def indexBuilderCore (env : BuilderEnv) (fuel : Nat) (prog : Progress)
    (db : List Entry) : LoopOut :=
  let adopt := !prog.completed && prog.total_indexed == 0 && db.length != 0
  let prog1 : Progress :=
    if adopt then ⟨prog.last_cursor, db.length, prog.completed⟩ else prog
  let w1 : List Progress := if adopt then [prog1] else []
  if prog1.completed then
    ⟨.alreadyCompleted prog1.total_indexed, prog1, db, 0, w1⟩
  else
    let out := builderLoop env fuel 0 prog1.last_cursor prog1.total_indexed prog1 db
    ⟨out.outcome, out.prog, out.db, out.queries, w1 ++ out.writes⟩

/-- `indexBuilder`: `getProgress` creates the `(NULL, 0, FALSE)` row on first
run (that insert is itself a persisted write), then runs the core. -/
def indexBuilder (env : BuilderEnv) (fuel : Nat) (initialProg : Option Progress)
    (db : List Entry) : LoopOut :=
  match initialProg with
  | none =>
    let out := indexBuilderCore env fuel ⟨none, 0, false⟩ db
    ⟨out.outcome, out.prog, out.db, out.queries, ⟨none, 0, false⟩ :: out.writes⟩
  | some p => indexBuilderCore env fuel p db

/-- C7 -- when the persisted progress row says `completed`, the invocation
reports completion immediately: zero queries against the external source, no
progress writes, progress row and index returned unchanged. -/
theorem indexBuilder_completed_is_terminal (env : BuilderEnv) (fuel : Nat)
    (p : Progress) (db : List Entry) (hc : p.completed = true) :
    indexBuilder env fuel (some p) db =
      ⟨.alreadyCompleted p.total_indexed, p, db, 0, []⟩ := by
  unfold indexBuilder indexBuilderCore
  simp [hc]

/-- C7 witness at a concrete completed row. -/
theorem indexBuilder_completed_is_terminal_witness :
    indexBuilder
      ⟨fun _ => ⟨[⟨"p1", some "x"⟩], none, false⟩, fun _ => false, fun _ => false⟩
      5 (some ⟨none, 42, true⟩) [⟨"x", "p1"⟩] =
      ⟨.alreadyCompleted 42, ⟨none, 42, true⟩, [⟨"x", "p1"⟩], 0, []⟩ :=
  indexBuilder_completed_is_terminal _ 5 ⟨none, 42, true⟩ [⟨"x", "p1"⟩] rfl

lemma builderLoop_chain (env : BuilderEnv) :
    ∀ (fuel k : Nat) (cursor : Option String) (total : Nat) (prog : Progress)
      (db : List Entry),
      List.Chain' (· ≤ ·)
        (total ::
          (builderLoop env fuel k cursor total prog db).writes.map
            Progress.total_indexed) := by
  intro fuel
  induction fuel with
  | zero => intro k cursor total prog db; exact List.chain'_singleton total
  | succ fuel ih =>
    intro k cursor total prog db
    unfold builderLoop
    by_cases h1 : env.timeLimitHit k = true
    · rw [if_pos h1]
      exact List.chain'_singleton total
    · rw [if_neg h1]
      by_cases h2 : (env.query cursor).results.isEmpty = true
      · rw [if_pos h2]
        exact List.chain'_cons.mpr ⟨Nat.le_refl total, List.chain'_singleton total⟩
      · rw [if_neg h2]
        by_cases h3 : (!(env.query cursor).has_more) = true
        · rw [if_pos h3]
          exact List.chain'_cons.mpr
            ⟨Nat.le_add_right total _, List.chain'_singleton _⟩
        · rw [if_neg h3]
          by_cases h4 : env.nearLimit k = true
          · rw [if_pos h4]
            exact List.chain'_cons.mpr
              ⟨Nat.le_add_right total _, List.chain'_singleton _⟩
          · rw [if_neg h4]
            refine List.chain'_cons.mpr ⟨Nat.le_add_right total _, ?_⟩
            exact ih (k + 1) (env.query cursor).next_cursor _ _ _

lemma indexBuilderCore_chain (env : BuilderEnv) (fuel : Nat) (prog : Progress)
    (db : List Entry) :
    List.Chain' (· ≤ ·)
      (prog.total_indexed ::
        (indexBuilderCore env fuel prog db).writes.map Progress.total_indexed) := by
  obtain ⟨cur, tot, comp⟩ := prog
  unfold indexBuilderCore
  dsimp only
  by_cases hA : (!comp && tot == 0 && db.length != 0) = true
  · have hA' := hA
    simp only [Bool.and_eq_true, Bool.not_eq_true', beq_iff_eq] at hA'
    obtain ⟨⟨hc, h0⟩, _⟩ := hA'
    subst hc
    subst h0
    simp only [hA, if_true]
    simp only [Bool.false_eq_true, if_false, List.singleton_append, List.map_cons]
    refine List.chain'_cons.mpr ⟨Nat.zero_le _, ?_⟩
    exact builderLoop_chain env fuel 0 cur db.length _ db
  · rw [if_neg hA, if_neg hA]
    dsimp only
    by_cases hc : comp = true
    · rw [if_pos hc]
      exact List.chain'_singleton _
    · rw [if_neg hc]
      simp only [List.nil_append]
      exact builderLoop_chain env fuel 0 cur tot _ db

/-- C8 -- across one whole invocation (progress-row initialization, bootstrap
count adoption, per-batch persistence), the persisted `total_indexed` values
form a non-decreasing chain starting from the previously persisted value
(0 when the row is first created). -/
theorem indexBuilder_total_indexed_monotone (env : BuilderEnv) (fuel : Nat)
    (initialProg : Option Progress) (db : List Entry) :
    List.Chain' (· ≤ ·)
      ((match initialProg with | some p => p.total_indexed | none => 0) ::
        (indexBuilder env fuel initialProg db).writes.map
          Progress.total_indexed) := by
  match initialProg with
  | some p => exact indexBuilderCore_chain env fuel p db
  | none =>
    unfold indexBuilder
    refine List.chain'_cons.mpr ⟨Nat.le_refl 0, ?_⟩
    exact indexBuilderCore_chain env fuel ⟨none, 0, false⟩ db

end NotionDup
